import Mathlib

/-!
Verification of `creachadair/ansi`.

A shallow embedding of package `ansi` (`src/ansi/ansi.go`) and of the companion
command (`src/cmd/ansi/ansi.go`).

* A Go `byte` is a `Fin 256`; a Go `string` and a `[]byte` are both `List Byte`.
* An `io.Writer` is a record of its methods acting on an explicit destination
  state `σ`: every call takes the state and returns the `(n, err)` pair together
  with the new state.
* `bytes.Buffer`, `io.WriteString`, `make` and `copy` belong to the Go standard
  library and language; they are embedded after their documented behaviour.
-/

namespace Ansi

/-! ## Data model -/

/-- A Go `byte`. -/
abbrev Byte := Fin 256

/-- The escape character, written `'\033'` in the source. -/
def ESC : Byte := 27

/-- The `(n int, err error)` pair returned by a `Write` call. -/
structure WriteResult where
  n : Int
  err : Option String
deriving DecidableEq, Repr

/-- An `io.Writer` value over a destination state `σ`.  `write` is the `Write`
method; `writeString` is the `WriteString` method when the dynamic type has one
(`io.StringWriter`); `fd` is the result of the `Fd()` method when the dynamic type
has one. -/
structure Writer (σ : Type) where
  write : List Byte → σ → WriteResult × σ
  writeString : Option (List Byte → σ → WriteResult × σ)
  fd : Option Nat

/-- Go standard library `io.WriteString(w, s)`: calls `w.WriteString(s)` when `w`
is an `io.StringWriter`, and `w.Write([]byte(s))` otherwise. -/
def WriteString {σ : Type} (w : Writer σ) (s : List Byte) (st : σ) : WriteResult × σ :=
  match w.writeString with
  | some ws => ws s st
  | none => w.write s st

/-- Go builtin `make([]byte, n)`: a slice of `n` zero bytes. -/
def make (n : Nat) : List Byte := List.replicate n 0

/-- Go builtin `copy(dst[off:], src)`: overwrites `dst` from index `off` with the
first `min (len dst - off) (len src)` bytes of `src`; the length of `dst` is
unchanged. -/
def copy (dst : List Byte) (off : Nat) (src : List Byte) : List Byte :=
  dst.take off ++ src.take (dst.length - off)
    ++ dst.drop (off + min (dst.length - off) src.length)

/-! ## `bytes.Buffer` -/

/-- Go standard library `bytes.Buffer`, as far as the package uses it: the
unread contents `buf` and the capacity `cap` of the backing slice. -/
structure Buffer where
  buf : List Byte
  cap : Nat
deriving DecidableEq, Repr

/-- The call `bytes.NewBuffer(make([]byte, 0, size))`: an empty buffer with capacity
`size`. -/
def NewBuffer (size : Nat) : Buffer := ⟨[], size⟩

/-- The call `(*bytes.Buffer).grow`: room for `n` more bytes.  The backing slice is
kept when it has room and is replaced by one of capacity `2*cap + n` otherwise. -/
def Buffer.grow (b : Buffer) (n : Nat) : Buffer :=
  if b.buf.length + n ≤ b.cap then b else { b with cap := 2 * b.cap + n }

/-- The method `(*bytes.Buffer).Write`: appends `p`, growing the buffer as needed;
returns `len(p)` and a nil error. -/
def Buffer.Write (b : Buffer) (p : List Byte) : WriteResult × Buffer :=
  let b1 := b.grow p.length
  (⟨p.length, none⟩, { b1 with buf := b1.buf ++ p })

/-- The method `(*bytes.Buffer).WriteString`: as `Write`, for a string. -/
def Buffer.WriteString (b : Buffer) (s : List Byte) : WriteResult × Buffer :=
  let b1 := b.grow s.length
  (⟨s.length, none⟩, { b1 with buf := b1.buf ++ s })

/-- The method `(*bytes.Buffer).Bytes`: the unread contents. -/
def Buffer.Bytes (b : Buffer) : List Byte := b.buf

/-- A `*bytes.Buffer` as an `io.Writer`; it is an `io.StringWriter` and has no
`Fd` method.  The destination state is the buffer itself. -/
def Buffer.writer : Writer Buffer :=
  { write := fun p b => b.Write p
    writeString := some (fun s b => b.WriteString s)
    fd := none }

/-! ## Package `ansi` -/

/-- The type `Coder` of `ansi.go`: the wrapped writer and the terminal flag. -/
structure Coder (σ : Type) where
  w : Writer σ
  isTerm : Bool

/-- The method `Coder.Write`: delegates to the wrapped writer. -/
def Coder.Write {σ : Type} (c : Coder σ) (data : List Byte) (st : σ) : WriteResult × σ :=
  c.w.write data st

/-- A `Coder` used as an `io.Writer`: its method set has `Write`, `Set` and `SetIf`
only, so it is neither an `io.StringWriter` nor has it an `Fd` method. -/
def Coder.writer {σ : Type} (c : Coder σ) : Writer σ :=
  { write := c.Write, writeString := none, fd := none }

/-- The function `Esc` of `ansi.go`. -/
def Esc {σ : Type} (w : Writer σ) (start : Byte) (data : List Byte) (st : σ) :
    WriteResult × σ :=
  if start = 0 then
    WriteString w data st
  else
    let size := 2 + data.length
    let buf := make size
    let buf := buf.set 0 ESC
    let buf := buf.set 1 start
    let buf := copy buf 2 data
    w.write buf st

/-- The type `escWriter` of `ansi.go`. -/
structure escWriter (σ : Type) where
  start : Byte
  end_ : Byte
  pfx : List Byte
  sfx : List Byte
  w : Writer σ

/-- The local buffer `buf` of `escWriter.Write` just before the final
`e.w.Write(buf.Bytes())`: lines 90 to 94 of `ansi.go`.  The results of the two `Esc`
calls and of `buf.Write` are discarded, as in the source. -/
def escWriter.compose {σ : Type} (e : escWriter σ) (data : List Byte) : Buffer :=
  let size := data.length + e.pfx.length + e.sfx.length + 2 + 2
  let buf := NewBuffer size
  let buf := (Esc Buffer.writer e.start e.pfx buf).2
  let buf := (buf.Write data).2
  let buf := (Esc Buffer.writer e.end_ e.sfx buf).2
  buf

/-- The method `escWriter.Write` of `ansi.go`. -/
def escWriter.Write {σ : Type} (e : escWriter σ) (data : List Byte) (st : σ) :
    WriteResult × σ :=
  e.w.write (e.compose data).Bytes st

/-- An `escWriter` used as an `io.Writer`: `Write` is its only method. -/
def escWriter.writer {σ : Type} (e : escWriter σ) : Writer σ :=
  { write := e.Write, writeString := none, fd := none }

/-- The method `Coder.Set` of `ansi.go`. -/
def Coder.Set {σ : Type} (c : Coder σ) (start : Byte) (pfx : List Byte) (end_ : Byte)
    (sfx : List Byte) : Writer σ :=
  escWriter.writer
    { start := start
      end_ := end_
      pfx := pfx
      sfx := sfx
      w := c.w }

/-- The method `Coder.SetIf` of `ansi.go`. -/
def Coder.SetIf {σ : Type} (c : Coder σ) (start : Byte) (pfx : List Byte) (end_ : Byte)
    (sfx : List Byte) : Writer σ :=
  if c.isTerm then
    c.Set start pfx end_ sfx
  else
    c.w

/-- The function `NewCoder` of `ansi.go`.  The external terminal query
`term.IsTerminal(int(fd))`, as a function of the handle `fd` that `Fd()` returned, is
the parameter `isTerminal`. -/
def NewCoder {σ : Type} (isTerminal : Nat → Bool) (w : Writer σ) : Coder σ :=
  let env : Coder σ := { w := w, isTerm := false }
  match w.fd with
  | some fd => { env with isTerm := isTerminal fd }
  | none => env

/-! ## Destinations and specification-side definitions -/

/-- A destination that records every call made on it: the state is the list of
byte sequences received, one entry per call, oldest first.  `resp` is the answer
the destination gives to a call, which may depend on what it has received before.
With `sw` set the destination is also an `io.StringWriter`. -/
def recorder (sw : Bool) (resp : List (List Byte) → List Byte → WriteResult) :
    Writer (List (List Byte)) :=
  { write := fun p log => (resp log p, log ++ [p])
    writeString := if sw then some (fun s log => (resp log s, log ++ [s])) else none
    fd := none }

/-- Writes the payloads `ps` one after the other to `w`, discarding the results. -/
def writeAll {σ : Type} (w : Writer σ) (ps : List (List Byte)) (st : σ) : σ :=
  ps.foldl (fun s p => (w.write p s).2) st

/-- Specification side: the bytes a marker contributes, `ESC marker` when the
marker is not zero and nothing otherwise. -/
def specMarker (m : Byte) : List Byte := if m = 0 then [] else [ESC, m]

/-- Specification side: the frame
`[ESC,start if start≠0] + prefix + p + [ESC,end if end≠0] + suffix`. -/
def specFrame (start : Byte) (pfx : List Byte) (end_ : Byte) (sfx : List Byte)
    (p : List Byte) : List Byte :=
  specMarker start ++ pfx ++ p ++ specMarker end_ ++ sfx

/-- Specification side: the number of bytes a marker contributes. -/
def specMarkerLen (m : Byte) : Nat := if m = 0 then 0 else 2

/-- Specification side: undoes a frame, given its specification, by dropping the
first `(2 if start ≠ 0) + len prefix` bytes and the last `(2 if end ≠ 0) + len suffix`
bytes. -/
def specUnframe (start : Byte) (pfx : List Byte) (end_ : Byte) (sfx : List Byte)
    (f : List Byte) : List Byte :=
  (f.drop (specMarkerLen start + pfx.length)).take
    (f.length - (specMarkerLen start + pfx.length) - (specMarkerLen end_ + sfx.length))

/-! ## Command `ansi` -/

/-- A recording destination of the kind of `os.Stdout` (an `*os.File`): it has the
methods `Write`, `WriteString` and `Fd`, the last returning `fd`. -/
def fileRecorder (fd : Nat) (resp : List (List Byte) → List Byte → WriteResult) :
    Writer (List (List Byte)) :=
  { write := fun p log => (resp log p, log ++ [p])
    writeString := some (fun s log => (resp log s, log ++ [s]))
    fd := some fd }

/-- The function `main` of `cmd/ansi/ansi.go`, as a function of the value of the
flag `-title`, of `os.Stdout` and of its state.  `log.Fatal` ends the program with
its message; otherwise the result is the state of standard output after the write,
whose `(n, err)` the source discards.  The literals are `']'` = 93, `"0;"` = 48, 59
and `"\007"` = 7. -/
def main {σ : Type} (isTerminal : Nat → Bool) (stdout : Writer σ) (setTitle : List Byte)
    (st : σ) : Except String σ :=
  if setTitle = [] then
    Except.error "You must specify a -title to set"
  else
    let c := NewCoder isTerminal stdout
    Except.ok (WriteString (c.SetIf 93 [48, 59] 0 [7]) setTitle st).2

end Ansi

namespace Ansi

/-! ## Shared lemmas -/

theorem make_two_add (n : Nat) : make (2 + n) = 0 :: 0 :: List.replicate n 0 := by
  unfold make
  rw [Nat.add_comm 2 n]
  rfl

theorem copy_header (a b : Byte) (data : List Byte) :
    copy (a :: b :: List.replicate data.length 0) 2 data = a :: b :: data := by
  simp only [copy, List.take_succ_cons, List.take_zero, List.length_cons, List.length_replicate,
    Nat.add_sub_cancel, List.take_length, Nat.min_self]
  rw [List.drop_eq_nil_of_le (by simp; omega)]
  simp

theorem Esc_buf (start : Byte) (data : List Byte) :
    copy (((make (2 + data.length)).set 0 ESC).set 1 start) 2 data = ESC :: start :: data := by
  rw [make_two_add]
  simp only [List.set_cons_zero, List.set_cons_succ]
  exact copy_header ESC start data

theorem Esc_zero {σ : Type} (w : Writer σ) (data : List Byte) (st : σ) :
    Esc w 0 data st = WriteString w data st := by
  simp [Esc]

theorem Esc_nonzero {σ : Type} (w : Writer σ) (start : Byte) (h : start ≠ 0)
    (data : List Byte) (st : σ) :
    Esc w start data st = w.write (ESC :: start :: data) st := by
  simp only [Esc, if_neg h]
  rw [Esc_buf]

theorem WriteString_buffer (s : List Byte) (b : Buffer) :
    WriteString Buffer.writer s b = b.Write s := rfl

theorem Buffer_Write_buf (b : Buffer) (p : List Byte) : (b.Write p).2.buf = b.buf ++ p := by
  simp only [Buffer.Write, Buffer.grow]
  split <;> rfl

theorem Buffer_Write_result (b : Buffer) (p : List Byte) :
    (b.Write p).1 = ⟨p.length, none⟩ := rfl

theorem Esc_buffer (m : Byte) (d : List Byte) (b : Buffer) :
    Esc Buffer.writer m d b = b.Write (specMarker m ++ d) := by
  by_cases h : m = 0
  · subst h
    rw [Esc_zero, WriteString_buffer]
    simp [specMarker]
  · rw [Esc_nonzero _ _ h]
    simp [specMarker, h, Buffer.writer]

theorem compose_Bytes {σ : Type} (e : escWriter σ) (data : List Byte) :
    (e.compose data).Bytes = specFrame e.start e.pfx e.end_ e.sfx data := by
  simp only [escWriter.compose, Buffer.Bytes, Esc_buffer, Buffer_Write_buf, NewBuffer, specFrame]
  simp

theorem escWriter_Write_eq {σ : Type} (e : escWriter σ) (data : List Byte) (st : σ) :
    e.Write data st = e.w.write (specFrame e.start e.pfx e.end_ e.sfx data) st := by
  simp only [escWriter.Write, compose_Bytes]

theorem specMarker_length (m : Byte) : (specMarker m).length = specMarkerLen m := by
  unfold specMarker specMarkerLen
  split <;> rfl

theorem specFrame_length (start : Byte) (pfx : List Byte) (end_ : Byte) (sfx p : List Byte) :
    (specFrame start pfx end_ sfx p).length
      = p.length + pfx.length + sfx.length + specMarkerLen start + specMarkerLen end_ := by
  simp only [specFrame, List.length_append, specMarker_length]
  omega

end Ansi

namespace Ansi

/-! ## The wrapping writer and `Esc` -/

/-- C1: one `Write` of `p` to the writer returned by `Coder.Set start pfx end_ sfx`
is one `Write` on the underlying destination carrying exactly
`(ESC start, if start ≠ 0) ++ pfx ++ p ++ (ESC end_, if end_ ≠ 0) ++ sfx`.  On a
recording destination the log gains that single entry, and an in-memory buffer
gains those bytes, whatever the terminal flag. -/
theorem C1_Set_write_emits_frame {σ : Type} (c : Coder σ) (start : Byte) (pfx : List Byte)
    (end_ : Byte) (sfx p : List Byte) (st : σ) (sw t : Bool)
    (resp : List (List Byte) → List Byte → WriteResult) (log : List (List Byte))
    (b : Buffer) :
    (c.Set start pfx end_ sfx).write p st
        = c.w.write ((if start = 0 then [] else [ESC, start]) ++ pfx ++ p
            ++ (if end_ = 0 then [] else [ESC, end_]) ++ sfx) st
      ∧ ((Coder.Set ⟨recorder sw resp, t⟩ start pfx end_ sfx).write p log).2
        = log ++ [(if start = 0 then [] else [ESC, start]) ++ pfx ++ p
            ++ (if end_ = 0 then [] else [ESC, end_]) ++ sfx]
      ∧ ((Coder.Set ⟨Buffer.writer, t⟩ start pfx end_ sfx).write p b).2.Bytes
        = b.Bytes ++ ((if start = 0 then [] else [ESC, start]) ++ pfx ++ p
            ++ (if end_ = 0 then [] else [ESC, end_]) ++ sfx) := by
  refine ⟨?_, ?_, ?_⟩
  · exact escWriter_Write_eq _ p st
  · show (escWriter.Write _ p log).2 = _
    rw [escWriter_Write_eq]
    rfl
  · show (escWriter.Write _ p b).2.Bytes = _
    rw [escWriter_Write_eq]
    exact Buffer_Write_buf b _

/-- C2: for a start byte `s ≠ 0` and any payload `p`, `Esc w s p` is one `Write` on
`w` carrying exactly `ESC, s` followed by `p`; a recording destination gains that
single entry; and on a `Coder` over an in-memory buffer, writing a further string
`q` afterwards leaves the buffer holding `ESC, s` ++ `p` ++ `q` after its former
contents. -/
theorem C2_Esc_nonzero_start {σ : Type} (w : Writer σ) (s : Byte) (hs : s ≠ 0)
    (p q : List Byte) (st : σ) (sw : Bool)
    (resp : List (List Byte) → List Byte → WriteResult) (log : List (List Byte))
    (isTerminal : Nat → Bool) (b : Buffer) :
    Esc w s p st = w.write (ESC :: s :: p) st
      ∧ Esc (recorder sw resp) s p log = (resp log (ESC :: s :: p), log ++ [ESC :: s :: p])
      ∧ (WriteString (NewCoder isTerminal Buffer.writer).writer q
            (Esc (NewCoder isTerminal Buffer.writer).writer s p b).2).2.Bytes
          = b.Bytes ++ [ESC, s] ++ p ++ q := by
  refine ⟨Esc_nonzero w s hs p st, ?_, ?_⟩
  · rw [Esc_nonzero _ s hs]
    rfl
  · rw [Esc_nonzero _ s hs]
    show ((((b.Write (ESC :: s :: p)).2).Write q).2).buf = _
    rw [Buffer_Write_buf, Buffer_Write_buf]
    simp [Buffer.Bytes]

/-- Witness of C2 on the case of `TestEsc`: start `a`, payload `A-`, then `OK`. -/
theorem C2_Esc_nonzero_start_witness :
    (97 : Byte) ≠ 0
      ∧ (WriteString (NewCoder (fun _ => true) Buffer.writer).writer [79, 75]
            (Esc (NewCoder (fun _ => true) Buffer.writer).writer 97 [65, 45] ⟨[], 0⟩).2).2.Bytes
          = [27, 97, 65, 45, 79, 75] :=
  ⟨by decide,
    (C2_Esc_nonzero_start Buffer.writer 97 (by decide) [65, 45] [79, 75] ⟨[], 0⟩ false
      (fun _ d => ⟨d.length, none⟩) [] (fun _ => true) ⟨[], 0⟩).2.2⟩

/-- C3: `Esc w 0 p` is `io.WriteString(w, p)`: same result, same effect on the
destination.  A recording destination gains the single entry `p`, with no `ESC`
and no marker byte before it, and an in-memory buffer gains exactly `p`. -/
theorem C3_Esc_zero_is_WriteString {σ : Type} (w : Writer σ) (p : List Byte) (st : σ)
    (sw : Bool) (resp : List (List Byte) → List Byte → WriteResult)
    (log : List (List Byte)) (b : Buffer) :
    Esc w 0 p st = WriteString w p st
      ∧ Esc (recorder sw resp) 0 p log = (resp log p, log ++ [p])
      ∧ (Esc Buffer.writer 0 p b).2.Bytes = b.Bytes ++ p
      ∧ (Esc Buffer.writer 0 p b).1 = (WriteString Buffer.writer p b).1 := by
  refine ⟨Esc_zero w p st, ?_, ?_, ?_⟩
  · rw [Esc_zero]
    cases sw <;> rfl
  · rw [Esc_zero]
    exact Buffer_Write_buf b p
  · rw [Esc_zero]

/-- C4: with the terminal flag false, `SetIf` returns the underlying destination
itself and a write of `p` through it is a write of `p` alone; with the flag true,
`SetIf` returns what `Set` returns for the same specification, so a write delivers
the same bytes. -/
theorem C4_SetIf_conditional {σ : Type} (w : Writer σ) (start : Byte) (pfx : List Byte)
    (end_ : Byte) (sfx p : List Byte) (st : σ) (sw : Bool)
    (resp : List (List Byte) → List Byte → WriteResult) (log : List (List Byte)) :
    Coder.SetIf ⟨w, false⟩ start pfx end_ sfx = w
      ∧ (Coder.SetIf ⟨w, false⟩ start pfx end_ sfx).write p st = w.write p st
      ∧ ((Coder.SetIf ⟨recorder sw resp, false⟩ start pfx end_ sfx).write p log).2
          = log ++ [p]
      ∧ Coder.SetIf ⟨w, true⟩ start pfx end_ sfx = Coder.Set ⟨w, true⟩ start pfx end_ sfx
      ∧ (Coder.SetIf ⟨w, true⟩ start pfx end_ sfx).write p st
          = (Coder.Set ⟨w, true⟩ start pfx end_ sfx).write p st
      ∧ ((Coder.SetIf ⟨recorder sw resp, true⟩ start pfx end_ sfx).write p log).2
          = log ++ [specFrame start pfx end_ sfx p] := by
  refine ⟨rfl, rfl, rfl, rfl, rfl, ?_⟩
  show (escWriter.Write _ p log).2 = _
  rw [escWriter_Write_eq]
  rfl

/-- C5: `Coder.Set` does not read the terminal flag: two coders with the same
underlying writer return the same writer from `Set`, so every write through it has
the same result and the same effect on the destination. -/
theorem C5_Set_ignores_isTerm {σ : Type} (c1 c2 : Coder σ) (hw : c1.w = c2.w)
    (start : Byte) (pfx : List Byte) (end_ : Byte) (sfx p : List Byte) (st : σ) :
    c1.Set start pfx end_ sfx = c2.Set start pfx end_ sfx
      ∧ (c1.Set start pfx end_ sfx).write p st = (c2.Set start pfx end_ sfx).write p st := by
  have h : c1.Set start pfx end_ sfx = c2.Set start pfx end_ sfx := by
    simp only [Coder.Set, hw]
  exact ⟨h, by rw [h]⟩

/-- Witness of C5: a coder with flag false and one with flag true over the same
in-memory buffer. -/
theorem C5_Set_ignores_isTerm_witness :
    (Coder.mk Buffer.writer false).w = (Coder.mk Buffer.writer true).w
      ∧ ((Coder.mk Buffer.writer false).Set 97 [65, 45] 98 [45]).write [79, 75] ⟨[], 0⟩
        = ((Coder.mk Buffer.writer true).Set 97 [65, 45] 98 [45]).write [79, 75] ⟨[], 0⟩ :=
  ⟨rfl, (C5_Set_ignores_isTerm (Coder.mk Buffer.writer false) (Coder.mk Buffer.writer true) rfl
    97 [65, 45] 98 [45] [79, 75] ⟨[], 0⟩).2⟩

/-- C6: for either value of the terminal flag, `Coder.Write data` is one `Write` of
`data`, unmodified, on the underlying destination, and returns that call's count
and error: a recording destination gains the single entry `data` and its answer is
what the coder returns. -/
theorem C6_Coder_Write_delegates {σ : Type} (c : Coder σ) (data : List Byte) (st : σ)
    (sw t : Bool) (resp : List (List Byte) → List Byte → WriteResult)
    (log : List (List Byte)) :
    c.Write data st = c.w.write data st
      ∧ Coder.Write ⟨recorder sw resp, t⟩ data log = (resp log data, log ++ [data]) :=
  ⟨rfl, rfl⟩

end Ansi

namespace Ansi

/-! ## Results, counts and call structure -/

theorem writeAll_nil {σ : Type} (w : Writer σ) (st : σ) : writeAll w [] st = st := rfl

theorem writeAll_cons {σ : Type} (w : Writer σ) (p : List Byte) (ps : List (List Byte))
    (st : σ) : writeAll w (p :: ps) st = writeAll w ps (w.write p st).2 := rfl

theorem writeAll_escWriter {σ : Type} (e : escWriter σ) (ps : List (List Byte)) (st : σ) :
    writeAll e.writer ps st
      = writeAll e.w (ps.map (specFrame e.start e.pfx e.end_ e.sfx)) st := by
  induction ps generalizing st with
  | nil => rfl
  | cons p ps ih =>
    rw [writeAll_cons, List.map_cons, writeAll_cons, ih]
    show writeAll _ _ (e.Write p st).2 = _
    rw [escWriter_Write_eq]

theorem writeAll_recorder (sw : Bool) (resp : List (List Byte) → List Byte → WriteResult)
    (qs : List (List Byte)) (log : List (List Byte)) :
    writeAll (recorder sw resp) qs log = log ++ qs := by
  induction qs generalizing log with
  | nil => simp [writeAll_nil]
  | cons q qs ih =>
    rw [writeAll_cons, ih]
    simp [recorder]

theorem writeAll_buffer (qs : List (List Byte)) (b : Buffer) :
    (writeAll Buffer.writer qs b).Bytes = b.Bytes ++ qs.flatten := by
  induction qs generalizing b with
  | nil => simp [writeAll_nil]
  | cons q qs ih =>
    rw [writeAll_cons, ih]
    show (b.Write q).2.buf ++ _ = _
    rw [Buffer_Write_buf]
    simp [Buffer.Bytes]

theorem specMarkerLen_eq_zero (m : Byte) : specMarkerLen m = 0 ↔ m = 0 := by
  unfold specMarkerLen
  split <;> simp_all

/-- C7: the `(count, error)` returned by the wrapping writer is exactly the pair the
underlying destination returned for the single write of the framed buffer, for
every answer the destination may give; so it carries an error exactly when the
destination reported one.  The framing steps on the local buffer (the two `Esc`
calls and `buf.Write`, whose results the source discards) never report an error. -/
theorem C7_escWriter_Write_result {σ : Type} (e : escWriter σ) (p : List Byte) (st : σ)
    (start : Byte) (pfx : List Byte) (end_ : Byte) (sfx : List Byte) (sw : Bool)
    (resp : List (List Byte) → List Byte → WriteResult) (log : List (List Byte))
    (b : Buffer) :
    e.Write p st = e.w.write (specFrame e.start e.pfx e.end_ e.sfx p) st
      ∧ ((e.Write p st).1.err ≠ none
          ↔ (e.w.write (specFrame e.start e.pfx e.end_ e.sfx p) st).1.err ≠ none)
      ∧ (escWriter.Write ⟨start, end_, pfx, sfx, recorder sw resp⟩ p log).1
          = resp log (specFrame start pfx end_ sfx p)
      ∧ (Esc Buffer.writer e.start e.pfx b).1.err = none
      ∧ (b.Write p).1.err = none
      ∧ (Esc Buffer.writer e.end_ e.sfx b).1.err = none := by
  refine ⟨escWriter_Write_eq e p st, ?_, ?_, ?_, rfl, ?_⟩
  · rw [escWriter_Write_eq]
  · rw [escWriter_Write_eq]
    rfl
  · rw [Esc_buffer]
    rfl
  · rw [Esc_buffer]
    rfl

/-- C8: on a destination that accepts every byte it is given (each `Write` returns
the length of its argument and a nil error), a `Write` of `p` through the wrapping
writer returns the length of the combined buffer,
`len p + len pfx + len sfx + (2 if start ≠ 0) + (2 if end_ ≠ 0)`, and that count is
`len p` exactly when both markers are zero and both strings are empty. -/
theorem C8_escWriter_Write_count {σ : Type} (e : escWriter σ)
    (hacc : ∀ (d : List Byte) (s : σ), (e.w.write d s).1 = ⟨d.length, none⟩)
    (p : List Byte) (st : σ) :
    (e.Write p st).1
        = ⟨((p.length + e.pfx.length + e.sfx.length + (if e.start = 0 then 0 else 2)
            + (if e.end_ = 0 then 0 else 2) : Nat) : Int), none⟩
      ∧ ((e.Write p st).1.n = (p.length : Int)
          ↔ e.start = 0 ∧ e.end_ = 0 ∧ e.pfx = [] ∧ e.sfx = []) := by
  have h : (e.Write p st).1
      = ⟨((p.length + e.pfx.length + e.sfx.length + specMarkerLen e.start
            + specMarkerLen e.end_ : Nat) : Int), none⟩ := by
    rw [escWriter_Write_eq, hacc, specFrame_length]
  refine ⟨h, ?_⟩
  rw [h]
  show ((p.length + e.pfx.length + e.sfx.length + specMarkerLen e.start
            + specMarkerLen e.end_ : Nat) : Int) = (p.length : Int) ↔ _
  rw [Int.ofNat_inj, ← specMarkerLen_eq_zero e.start, ← specMarkerLen_eq_zero e.end_,
    ← List.length_eq_zero, ← List.length_eq_zero]
  omega

/-- Witness of C8: the in-memory buffer accepts every byte; start `a`, prefix `A-`,
end `b`, suffix `-mate`, payload `OK` gives the count 13, not 2. -/
theorem C8_escWriter_Write_count_witness :
    (∀ (d : List Byte) (s : Buffer), (Buffer.writer.write d s).1 = ⟨d.length, none⟩)
      ∧ (escWriter.Write ⟨97, 98, [65, 45], [45, 109, 97, 116, 101], Buffer.writer⟩
            [79, 75] ⟨[], 0⟩).1 = ⟨13, none⟩ :=
  ⟨fun _ _ => rfl,
    (C8_escWriter_Write_count ⟨97, 98, [65, 45], [45, 109, 97, 116, 101], Buffer.writer⟩
      (fun _ _ => rfl) [79, 75] ⟨[], 0⟩).1⟩

/-- C9: the wrapping writer issues one downstream write per call and carries
nothing from one call to the next: writing the payloads `ps` through it is writing
their frames, one by one, to the destination.  A recording destination gains
exactly one entry per payload, the i-th being the frame of the i-th payload alone,
and an in-memory buffer gains the concatenation of the frames. -/
theorem C9_escWriter_one_write_per_call {σ : Type} (e : escWriter σ)
    (ps : List (List Byte)) (st : σ) (start : Byte) (pfx : List Byte) (end_ : Byte)
    (sfx : List Byte) (sw : Bool) (resp : List (List Byte) → List Byte → WriteResult)
    (log : List (List Byte)) (b : Buffer) :
    writeAll e.writer ps st = writeAll e.w (ps.map (specFrame e.start e.pfx e.end_ e.sfx)) st
      ∧ writeAll (escWriter.writer ⟨start, end_, pfx, sfx, recorder sw resp⟩) ps log
          = log ++ ps.map (specFrame start pfx end_ sfx)
      ∧ (writeAll (escWriter.writer ⟨start, end_, pfx, sfx, recorder sw resp⟩) ps log).length
          = log.length + ps.length
      ∧ (writeAll (escWriter.writer ⟨start, end_, pfx, sfx, Buffer.writer⟩) ps b).Bytes
          = b.Bytes ++ (ps.map (specFrame start pfx end_ sfx)).flatten := by
  refine ⟨writeAll_escWriter e ps st, ?_, ?_, ?_⟩
  · rw [writeAll_escWriter, writeAll_recorder]
  · rw [writeAll_escWriter, writeAll_recorder]
    simp
  · rw [writeAll_escWriter, writeAll_buffer]

/-- C10: for every start byte and payload, `Esc` makes exactly one call on the
destination (`io.WriteString` when the start byte is zero, `Write` otherwise)
carrying the whole sequence, and returns what that call returned: a recording
destination gains the single entry `(ESC start, if start ≠ 0) ++ data` and `Esc`
returns the answer the destination gave to it. -/
theorem C10_Esc_single_write {σ : Type} (w : Writer σ) (start : Byte) (data : List Byte)
    (st : σ) (sw : Bool) (resp : List (List Byte) → List Byte → WriteResult)
    (log : List (List Byte)) :
    Esc w start data st
        = (if start = 0 then WriteString w data st else w.write (ESC :: start :: data) st)
      ∧ Esc (recorder sw resp) start data log
        = (resp log ((if start = 0 then [] else [ESC, start]) ++ data),
            log ++ [(if start = 0 then [] else [ESC, start]) ++ data])
      ∧ (Esc (recorder sw resp) start data log).2.length = log.length + 1 := by
  by_cases h : start = 0
  · subst h
    have hr : Esc (recorder sw resp) 0 data log = (resp log data, log ++ [data]) := by
      rw [Esc_zero]
      cases sw <;> rfl
    refine ⟨by simp [Esc_zero], by simp [hr], by simp [hr]⟩
  · have hr : Esc (recorder sw resp) start data log
        = (resp log (ESC :: start :: data), log ++ [ESC :: start :: data]) := by
      rw [Esc_nonzero _ _ h]
      rfl
    refine ⟨by simp [Esc_nonzero _ _ h, h], by simp [hr, h], by simp [hr]⟩

end Ansi

namespace Ansi

/-! ## Marker omission, order of the trailer, terminal detection -/

/-- C11 as stated fails: with both markers zero, prefix `A`, suffix `B` and the
payload consisting of the single byte `0x1B`, the destination receives `A 0x1B B`,
which contains an escape byte. -/
theorem C11_no_escape_counterexample :
    ([65] : List Byte) ≠ [] ∧ ([66] : List Byte) ≠ []
      ∧ ((Coder.Set ⟨Buffer.writer, true⟩ 0 [65] 0 [66]).write [27] (NewBuffer 0)).2.Bytes
          = [65, 27, 66]
      ∧ ESC ∈ ((Coder.Set ⟨Buffer.writer, true⟩ 0 [65] 0 [66]).write [27] (NewBuffer 0)).2.Bytes := by
  decide

/-- C11, amended: with start = 0 and end = 0, for every prefix and suffix (non-empty
ones included) and every payload `p`, the destination receives in one write exactly
`pfx ++ p ++ sfx`; the framing adds no escape byte, so `0x1B` occurs in the output
exactly as often as in prefix, payload and suffix together, and occurs at all only
if one of the three contains it. -/
theorem C11_zero_markers_add_no_escape {σ : Type} (c : Coder σ) (pfx sfx p : List Byte)
    (st : σ) (sw t : Bool) (resp : List (List Byte) → List Byte → WriteResult)
    (log : List (List Byte)) :
    (c.Set 0 pfx 0 sfx).write p st = c.w.write (pfx ++ p ++ sfx) st
      ∧ ((Coder.Set ⟨recorder sw resp, t⟩ 0 pfx 0 sfx).write p log).2
          = log ++ [pfx ++ p ++ sfx]
      ∧ ((Coder.Set ⟨Buffer.writer, t⟩ 0 pfx 0 sfx).write p (NewBuffer 0)).2.Bytes
          = pfx ++ p ++ sfx
      ∧ (((Coder.Set ⟨Buffer.writer, t⟩ 0 pfx 0 sfx).write p (NewBuffer 0)).2.Bytes).count ESC
          = pfx.count ESC + p.count ESC + sfx.count ESC
      ∧ (ESC ∈ ((Coder.Set ⟨Buffer.writer, t⟩ 0 pfx 0 sfx).write p (NewBuffer 0)).2.Bytes
          ↔ ESC ∈ pfx ∨ ESC ∈ p ∨ ESC ∈ sfx) := by
  have hf : specFrame 0 pfx 0 sfx p = pfx ++ p ++ sfx := by
    simp [specFrame, specMarker]
  have hb : ((Coder.Set ⟨Buffer.writer, t⟩ 0 pfx 0 sfx).write p (NewBuffer 0)).2.Bytes
      = pfx ++ p ++ sfx := by
    show (escWriter.Write _ p (NewBuffer 0)).2.Bytes = _
    rw [escWriter_Write_eq]
    show ((NewBuffer 0).Write (specFrame 0 pfx 0 sfx p)).2.buf = _
    rw [Buffer_Write_buf, hf]
    rfl
  refine ⟨?_, ?_, hb, ?_, ?_⟩
  · show escWriter.Write _ p st = _
    rw [escWriter_Write_eq]
    show c.w.write (specFrame 0 pfx 0 sfx p) st = _
    rw [hf]
  · show (escWriter.Write _ p log).2 = _
    rw [escWriter_Write_eq]
    show log ++ [specFrame 0 pfx 0 sfx p] = _
    rw [hf]
  · rw [hb]
    simp only [List.count_append]
  · rw [hb]
    simp [or_assoc]

/-- C12 as stated fails, on the case `Suffix and trailer, no prefix` of `TestSet`:
start `a`, end `b`, empty prefix, suffix `bye`, payload `OK`.  The destination
receives `ESC a OK ESC b bye`, which is not `ESC a OK bye ESC b`: the trailer
`ESC end` comes before the suffix. -/
theorem C12_suffix_before_trailer_counterexample :
    (97 : Byte) ≠ 0 ∧ (98 : Byte) ≠ 0
      ∧ ((Coder.Set ⟨Buffer.writer, true⟩ 97 [] 98 [98, 121, 101]).write [79, 75]
            (NewBuffer 0)).2.Bytes
          = [27, 97, 79, 75, 27, 98, 98, 121, 101]
      ∧ ((Coder.Set ⟨Buffer.writer, true⟩ 97 [] 98 [98, 121, 101]).write [79, 75]
            (NewBuffer 0)).2.Bytes
          ≠ [ESC, 97] ++ [] ++ [79, 75] ++ [98, 121, 101] ++ [ESC, 98] := by
  decide

/-- C12, amended: for start ≠ 0 and end ≠ 0 and every prefix, suffix and payload,
the bytes written to the underlying writer are `0x1B, start, prefix, payload, 0x1B,
end, suffix` in that order, in one write: the trailer `ESC end` comes before the
suffix. -/
theorem C12_trailer_before_suffix {σ : Type} (c : Coder σ) (start : Byte) (hs : start ≠ 0)
    (pfx : List Byte) (end_ : Byte) (he : end_ ≠ 0) (sfx p : List Byte) (st : σ)
    (sw t : Bool) (resp : List (List Byte) → List Byte → WriteResult)
    (log : List (List Byte)) :
    (c.Set start pfx end_ sfx).write p st
        = c.w.write ([ESC, start] ++ pfx ++ p ++ [ESC, end_] ++ sfx) st
      ∧ ((Coder.Set ⟨recorder sw resp, t⟩ start pfx end_ sfx).write p log).2
        = log ++ [[ESC, start] ++ pfx ++ p ++ [ESC, end_] ++ sfx] := by
  have hf : specFrame start pfx end_ sfx p = [ESC, start] ++ pfx ++ p ++ [ESC, end_] ++ sfx := by
    simp [specFrame, specMarker, hs, he]
  constructor
  · show escWriter.Write _ p st = _
    rw [escWriter_Write_eq]
    show c.w.write (specFrame start pfx end_ sfx p) st = _
    rw [hf]
  · show (escWriter.Write _ p log).2 = _
    rw [escWriter_Write_eq]
    show log ++ [specFrame start pfx end_ sfx p] = _
    rw [hf]

/-- Witness of the amended C12 on the case `Prefix, suffix, and trailer` of
`TestSet`: the recorded write is `ESC a A- OK ESC b -mate`. -/
theorem C12_trailer_before_suffix_witness :
    (97 : Byte) ≠ 0 ∧ (98 : Byte) ≠ 0
      ∧ ((Coder.Set ⟨recorder false (fun _ d => ⟨d.length, none⟩), false⟩ 97 [65, 45] 98
            [45, 109, 97, 116, 101]).write [79, 75] []).2
          = [[27, 97, 65, 45, 79, 75, 27, 98, 45, 109, 97, 116, 101]] :=
  ⟨by decide, by decide,
    (C12_trailer_before_suffix (Coder.mk Buffer.writer false) 97 (by decide) [65, 45] 98
      (by decide) [45, 109, 97, 116, 101] [79, 75] (NewBuffer 0) false false
      (fun _ d => ⟨d.length, none⟩) []).2⟩

/-- C13: `NewCoder w` stores `w` as the underlying destination; its flag is
`isTerminal fd` when `w` has an `Fd` method returning `fd`, and false when `w` has
none.  `NewCoder` takes and returns no destination state: it makes no write.  A
coder built over an in-memory buffer has flag false, and its `SetIf` returns the
buffer itself, so a write of `p` through it adds exactly `p`. -/
theorem C13_NewCoder_flag {σ : Type} (isTerminal : Nat → Bool) (w : Writer σ)
    (wr : List Byte → σ → WriteResult × σ)
    (ws : Option (List Byte → σ → WriteResult × σ)) (fd : Nat) (start : Byte)
    (pfx : List Byte) (end_ : Byte) (sfx p : List Byte) (b : Buffer) :
    (NewCoder isTerminal w).w = w
      ∧ NewCoder isTerminal ⟨wr, ws, some fd⟩ = ⟨⟨wr, ws, some fd⟩, isTerminal fd⟩
      ∧ NewCoder isTerminal ⟨wr, ws, none⟩ = ⟨⟨wr, ws, none⟩, false⟩
      ∧ (NewCoder isTerminal Buffer.writer).isTerm = false
      ∧ (NewCoder isTerminal Buffer.writer).SetIf start pfx end_ sfx = Buffer.writer
      ∧ (((NewCoder isTerminal Buffer.writer).SetIf start pfx end_ sfx).write p b).2.Bytes
          = b.Bytes ++ p := by
  refine ⟨?_, rfl, rfl, rfl, rfl, ?_⟩
  · unfold NewCoder
    cases w.fd <;> rfl
  · exact Buffer_Write_buf b p

end Ansi

namespace Ansi

/-! ## The command, the buffer capacity, reversibility, nested coders -/

theorem Buffer_Write_room (b : Buffer) (p : List Byte) (h : b.buf.length + p.length ≤ b.cap) :
    (b.Write p).2 = ⟨b.buf ++ p, b.cap⟩ := by
  simp only [Buffer.Write, Buffer.grow, if_pos h]

theorem specMarkerLen_le (m : Byte) : specMarkerLen m ≤ 2 := by
  unfold specMarkerLen
  split <;> omega

theorem specMarkerLen_eq_two (m : Byte) : specMarkerLen m = 2 ↔ m ≠ 0 := by
  unfold specMarkerLen
  split <;> simp_all

theorem compose_steps {σ : Type} (e : escWriter σ) (data : List Byte) :
    (Esc Buffer.writer e.start e.pfx
        (NewBuffer (data.length + e.pfx.length + e.sfx.length + 2 + 2))).2
        = ⟨specMarker e.start ++ e.pfx, data.length + e.pfx.length + e.sfx.length + 2 + 2⟩
      ∧ ((Esc Buffer.writer e.start e.pfx
          (NewBuffer (data.length + e.pfx.length + e.sfx.length + 2 + 2))).2.Write data).2
        = ⟨specMarker e.start ++ e.pfx ++ data,
            data.length + e.pfx.length + e.sfx.length + 2 + 2⟩
      ∧ e.compose data
        = ⟨specFrame e.start e.pfx e.end_ e.sfx data,
            data.length + e.pfx.length + e.sfx.length + 2 + 2⟩ := by
  have h1 : (Esc Buffer.writer e.start e.pfx
        (NewBuffer (data.length + e.pfx.length + e.sfx.length + 2 + 2))).2
        = ⟨specMarker e.start ++ e.pfx, data.length + e.pfx.length + e.sfx.length + 2 + 2⟩ := by
    rw [Esc_buffer, Buffer_Write_room]
    · rfl
    · have := specMarkerLen_le e.start
      simp only [NewBuffer, List.length_nil, List.length_append, specMarker_length]
      omega
  have h2 : ((Esc Buffer.writer e.start e.pfx
          (NewBuffer (data.length + e.pfx.length + e.sfx.length + 2 + 2))).2.Write data).2
        = ⟨specMarker e.start ++ e.pfx ++ data,
            data.length + e.pfx.length + e.sfx.length + 2 + 2⟩ := by
    rw [h1, Buffer_Write_room]
    have := specMarkerLen_le e.start
    simp only [List.length_append, specMarker_length]
    omega
  refine ⟨h1, h2, ?_⟩
  show (Esc Buffer.writer e.end_ e.sfx ((Esc Buffer.writer e.start e.pfx
          (NewBuffer (data.length + e.pfx.length + e.sfx.length + 2 + 2))).2.Write data).2).2 = _
  rw [h2, Esc_buffer, Buffer_Write_room]
  · simp [specFrame]
  · have := specMarkerLen_le e.start
    have := specMarkerLen_le e.end_
    simp only [List.length_append, specMarker_length]
    omega

theorem specUnframe_specFrame (start : Byte) (pfx : List Byte) (end_ : Byte)
    (sfx p : List Byte) :
    specUnframe start pfx end_ sfx (specFrame start pfx end_ sfx p) = p := by
  have hd : (specFrame start pfx end_ sfx p).drop (specMarkerLen start + pfx.length)
      = p ++ (specMarker end_ ++ sfx) := by
    have : specFrame start pfx end_ sfx p
        = (specMarker start ++ pfx) ++ (p ++ (specMarker end_ ++ sfx)) := by
      simp [specFrame]
    rw [this]
    exact List.drop_left' (by simp [specMarker_length])
  unfold specUnframe
  rw [hd, specFrame_length]
  exact List.take_left' (by omega)

/-- C14 as stated fails: for the title `A` on a standard output that is a terminal,
the program writes `ESC ] 0 ; A BEL`, six bytes with a single escape character; it
is not `ESC ] 0 ; A ESC` followed by any terminator. -/
theorem C14_second_escape_counterexample :
    main (fun _ => true) (fileRecorder 1 (fun _ d => ⟨d.length, none⟩)) [65] []
        = Except.ok [[27, 93, 48, 59, 65, 7]]
      ∧ List.count ESC [27, 93, 48, 59, 65, 7] = 1
      ∧ ¬ ∃ terminator : List Byte,
          main (fun _ => true) (fileRecorder 1 (fun _ d => ⟨d.length, none⟩)) [65] []
            = Except.ok [[ESC, 93] ++ [48, 59] ++ [65] ++ [ESC] ++ terminator] := by
  refine ⟨rfl, by decide, ?_⟩
  rintro ⟨terminator, h⟩
  have h2 : (Except.ok [[27, 93, 48, 59, 65, 7]] : Except String (List (List Byte)))
      = Except.ok [[ESC, 93] ++ [48, 59] ++ [65] ++ [ESC] ++ terminator] := h
  simp [ESC] at h2

theorem main_on_terminal {σ : Type} (isTerminal : Nat → Bool) (stdout : Writer σ)
    (fd : Nat) (hfd : stdout.fd = some fd) (hterm : isTerminal fd = true) (t : List Byte)
    (ht : t ≠ []) (st : σ) :
    main isTerminal stdout t st
      = Except.ok (stdout.write ([ESC, 93] ++ [48, 59] ++ t ++ [7]) st).2 := by
  have hc : NewCoder isTerminal stdout = ⟨stdout, true⟩ := by
    simp only [NewCoder, hfd, hterm]
  simp only [main, if_neg ht, hc]
  show Except.ok (escWriter.Write _ t st).2 = _
  rw [escWriter_Write_eq]
  simp [specFrame, specMarker, ESC]

/-- C14, amended: for every non-empty title `t`, when standard output has a
file-descriptor handle that is a terminal, the program makes one write on standard
output carrying exactly `0x1B`, `]`, `0;`, the bytes of `t`, then the single byte
`0x07` (BEL).  The end marker it passes is zero, so the framing puts no escape
character before the terminator: the bytes written hold exactly one `0x1B` more
than `t` itself, the leading one, and end with BEL, and the byte before BEL is
the last byte of `t`. -/
theorem C14_main_title_sequence {σ : Type} (isTerminal : Nat → Bool) (stdout : Writer σ)
    (fd : Nat) (hfd : stdout.fd = some fd) (hterm : isTerminal fd = true) (t : List Byte)
    (ht : t ≠ []) (st : σ) (resp : List (List Byte) → List Byte → WriteResult)
    (log : List (List Byte)) :
    main isTerminal stdout t st
        = Except.ok (stdout.write ([ESC, 93] ++ [48, 59] ++ t ++ [7]) st).2
      ∧ main isTerminal (fileRecorder fd resp) t log
        = Except.ok (log ++ [[ESC, 93] ++ [48, 59] ++ t ++ [7]])
      ∧ List.count ESC ([ESC, 93] ++ [48, 59] ++ t ++ [7]) = 1 + List.count ESC t
      ∧ ([ESC, 93] ++ [48, 59] ++ t ++ [7]).getLast? = some 7
      ∧ ([ESC, 93] ++ [48, 59] ++ t ++ [7]).dropLast = [ESC, 93, 48, 59] ++ t
      ∧ ([ESC, 93] ++ [48, 59] ++ t ++ [7]).dropLast.getLast? = t.getLast? := by
  refine ⟨main_on_terminal isTerminal stdout fd hfd hterm t ht st, ?_, ?_, ?_, ?_, ?_⟩
  · rw [main_on_terminal isTerminal (fileRecorder fd resp) fd rfl hterm t ht log]
    rfl
  · have h7 : (7 : Byte) ≠ ESC := by decide
    have h93 : (93 : Byte) ≠ ESC := by decide
    have h48 : (48 : Byte) ≠ ESC := by decide
    have h59 : (59 : Byte) ≠ ESC := by decide
    simp only [List.count_append, List.count_cons, List.count_nil, beq_self_eq_true,
      beq_iff_eq, h7, h93, h48, h59, if_true, if_false]
    omega
  · exact List.getLast?_concat _
  · rw [List.dropLast_concat]
    rfl
  · rw [List.dropLast_concat]
    cases t with
    | nil => exact absurd rfl ht
    | cons a l => simp [List.getLast?_cons_cons]

/-- Witness of the amended C14: the title is the single byte `0x1B`, standard output
a recording file with handle 1 that is a terminal.  The write is `1B 5D 30 3B 1B 07`:
two escape bytes, one more than the title holds. -/
theorem C14_main_title_sequence_witness :
    (fileRecorder 1 (fun _ d => ⟨d.length, none⟩)).fd = some 1
      ∧ (fun _ : Nat => true) 1 = true
      ∧ ([27] : List Byte) ≠ []
      ∧ main (fun _ => true) (fileRecorder 1 (fun _ d => ⟨d.length, none⟩)) [27] []
          = Except.ok [[27, 93, 48, 59, 27, 7]]
      ∧ List.count ESC ([27, 93, 48, 59, 27, 7] : List Byte) = 1 + List.count ESC [27] :=
  ⟨rfl, rfl, by decide,
    (C14_main_title_sequence (fun _ => true) (fileRecorder 1 (fun _ d => ⟨d.length, none⟩)) 1
      rfl rfl [27] (by decide) [] (fun _ d => ⟨d.length, none⟩) []).2.1,
    (C14_main_title_sequence (fun _ => true) (fileRecorder 1 (fun _ d => ⟨d.length, none⟩)) 1
      rfl rfl [27] (by decide) [] (fun _ d => ⟨d.length, none⟩) []).2.2.1⟩

/-- C15: the capacity computed in `escWriter.Write`, `len data + len prefix + len
suffix + 4`, is always enough: the composed frame is never longer, and is exactly
that long when and only when both markers are non-zero; the capacity of the local
buffer is still the initial one after each of the three writes, so the buffer never
grows; the unused room is 2 bytes for each zero marker. -/
theorem C15_capacity_sufficient {σ : Type} (e : escWriter σ) (data : List Byte) :
    (e.compose data).Bytes.length ≤ data.length + e.pfx.length + e.sfx.length + 4
      ∧ ((e.compose data).Bytes.length = data.length + e.pfx.length + e.sfx.length + 4
          ↔ e.start ≠ 0 ∧ e.end_ ≠ 0)
      ∧ (Esc Buffer.writer e.start e.pfx
          (NewBuffer (data.length + e.pfx.length + e.sfx.length + 2 + 2))).2.cap
          = data.length + e.pfx.length + e.sfx.length + 4
      ∧ ((Esc Buffer.writer e.start e.pfx
          (NewBuffer (data.length + e.pfx.length + e.sfx.length + 2 + 2))).2.Write data).2.cap
          = data.length + e.pfx.length + e.sfx.length + 4
      ∧ (e.compose data).cap = data.length + e.pfx.length + e.sfx.length + 4
      ∧ (e.compose data).cap - (e.compose data).Bytes.length
          = (if e.start = 0 then 2 else 0) + (if e.end_ = 0 then 2 else 0) := by
  obtain ⟨h1, h2, h3⟩ := compose_steps e data
  have hs := specMarkerLen_le e.start
  have he := specMarkerLen_le e.end_
  have hs2 := specMarkerLen_eq_two e.start
  have he2 := specMarkerLen_eq_two e.end_
  have hlen : (e.compose data).Bytes.length
      = data.length + e.pfx.length + e.sfx.length + specMarkerLen e.start
          + specMarkerLen e.end_ := by
    rw [compose_Bytes, specFrame_length]
  refine ⟨by omega, ?_, by rw [h1], by rw [h2], by rw [h3], ?_⟩
  · rw [hlen, ← hs2, ← he2]
    omega
  · rw [hlen, h3]
    show data.length + e.pfx.length + e.sfx.length + 2 + 2
        - (data.length + e.pfx.length + e.sfx.length + specMarkerLen e.start
            + specMarkerLen e.end_)
      = (if e.start = 0 then 2 else 0) + (if e.end_ = 0 then 2 else 0)
    unfold specMarkerLen
    split <;> split <;> omega

theorem recorder_escWriter_Write (start : Byte) (pfx : List Byte) (end_ : Byte)
    (sfx p : List Byte) (sw : Bool) (resp : List (List Byte) → List Byte → WriteResult)
    (log : List (List Byte)) :
    (escWriter.Write ⟨start, end_, pfx, sfx, recorder sw resp⟩ p log).2
      = log ++ [specFrame start pfx end_ sfx p] := by
  rw [escWriter_Write_eq]
  rfl

theorem buffer_escWriter_Write (start : Byte) (pfx : List Byte) (end_ : Byte)
    (sfx p : List Byte) :
    (escWriter.Write ⟨start, end_, pfx, sfx, Buffer.writer⟩ p (NewBuffer 0)).2.Bytes
      = specFrame start pfx end_ sfx p := by
  rw [escWriter_Write_eq]
  show ((NewBuffer 0).Write (specFrame start pfx end_ sfx p)).2.buf = _
  rw [Buffer_Write_buf]
  rfl

/-- C16: given the specification, the payload is recovered from the frame the
destination receives from the wrapping writer by dropping the first
`(2 if start ≠ 0) + len prefix` bytes and the last `(2 if end ≠ 0) + len suffix`
bytes.  On a recording destination, a `Write` of `p` adds entries which, so
stripped, are exactly `p`, once; on an empty in-memory buffer the contents after
the write, so stripped, are `p`.  Hence, for a fixed specification, two distinct
payloads leave the destination with two distinct frames. -/
theorem C16_framing_reversible (start : Byte) (pfx : List Byte) (end_ : Byte)
    (sfx p q : List Byte) (hne : p ≠ q) (sw : Bool)
    (resp : List (List Byte) → List Byte → WriteResult) (log : List (List Byte)) :
    (((escWriter.Write ⟨start, end_, pfx, sfx, recorder sw resp⟩ p log).2.drop log.length).map
        (fun f => (f.drop ((if start = 0 then 0 else 2) + pfx.length)).take
          (f.length - ((if start = 0 then 0 else 2) + pfx.length)
            - ((if end_ = 0 then 0 else 2) + sfx.length)))) = [p]
      ∧ (escWriter.Write ⟨start, end_, pfx, sfx, recorder sw resp⟩ p log).2
          ≠ (escWriter.Write ⟨start, end_, pfx, sfx, recorder sw resp⟩ q log).2
      ∧ ((escWriter.Write ⟨start, end_, pfx, sfx, Buffer.writer⟩ p (NewBuffer 0)).2.Bytes.drop
            ((if start = 0 then 0 else 2) + pfx.length)).take
          ((escWriter.Write ⟨start, end_, pfx, sfx, Buffer.writer⟩ p (NewBuffer 0)).2.Bytes.length
            - ((if start = 0 then 0 else 2) + pfx.length)
            - ((if end_ = 0 then 0 else 2) + sfx.length)) = p
      ∧ (escWriter.Write ⟨start, end_, pfx, sfx, Buffer.writer⟩ p (NewBuffer 0)).2.Bytes
          ≠ (escWriter.Write ⟨start, end_, pfx, sfx, Buffer.writer⟩ q (NewBuffer 0)).2.Bytes := by
  have hp := specUnframe_specFrame start pfx end_ sfx p
  have hq := specUnframe_specFrame start pfx end_ sfx q
  have hinj : specFrame start pfx end_ sfx p ≠ specFrame start pfx end_ sfx q := by
    intro h
    apply hne
    rw [← hp, ← hq, h]
  refine ⟨?_, ?_, ?_, ?_⟩
  · rw [recorder_escWriter_Write, List.drop_left]
    show [specUnframe start pfx end_ sfx (specFrame start pfx end_ sfx p)] = [p]
    rw [hp]
  · rw [recorder_escWriter_Write, recorder_escWriter_Write]
    intro h
    apply hinj
    have h2 := List.append_cancel_left h
    exact List.singleton_inj.mp h2
  · rw [buffer_escWriter_Write]
    exact hp
  · rw [buffer_escWriter_Write, buffer_escWriter_Write]
    exact hinj

/-- Witness of C16: start `a`, prefix `A-`, no end marker, suffix `-`; the payloads
`OK` and `KO`, written to a recording destination that has already received one
entry. -/
theorem C16_framing_reversible_witness :
    ([79, 75] : List Byte) ≠ [75, 79]
      ∧ (escWriter.Write ⟨97, 0, [65, 45], [45], recorder false (fun _ d => ⟨d.length, none⟩)⟩
            [79, 75] [[1]]).2
          ≠ (escWriter.Write ⟨97, 0, [65, 45], [45], recorder false (fun _ d => ⟨d.length, none⟩)⟩
            [75, 79] [[1]]).2
      ∧ ((escWriter.Write ⟨97, 0, [65, 45], [45], Buffer.writer⟩ [79, 75]
            (NewBuffer 0)).2.Bytes.drop 4).take
          ((escWriter.Write ⟨97, 0, [65, 45], [45], Buffer.writer⟩ [79, 75]
            (NewBuffer 0)).2.Bytes.length - 4 - 1) = [79, 75] :=
  ⟨by decide,
    (C16_framing_reversible 97 [65, 45] 0 [45] [79, 75] [75, 79] (by decide) false
      (fun _ d => ⟨d.length, none⟩) [[1]]).2.1,
    (C16_framing_reversible 97 [65, 45] 0 [45] [79, 75] [75, 79] (by decide) false
      (fun _ d => ⟨d.length, none⟩) [[1]]).2.2.1⟩

/-- C17: a `Coder` used as a writer has no `Fd` method, so `NewCoder` applied to any
coder `c`, whatever the flag of `c` and whatever the terminal query answers, yields
a coder with flag false whose destination is `c`; its `SetIf` returns `c` itself, so
a write of `p` through it reaches the destination of `c` as `p` alone, while its
`Set` still frames the write. -/
theorem C17_NewCoder_over_Coder {σ : Type} (isTerminal : Nat → Bool) (c : Coder σ)
    (start : Byte) (pfx : List Byte) (end_ : Byte) (sfx p : List Byte) (st : σ)
    (fd : Nat) (resp : List (List Byte) → List Byte → WriteResult)
    (log : List (List Byte)) :
    (Coder.writer c).fd = none
      ∧ (NewCoder isTerminal c.writer).isTerm = false
      ∧ (NewCoder (fun _ => true) (Coder.writer ⟨fileRecorder fd resp, true⟩)).isTerm = false
      ∧ (NewCoder isTerminal c.writer).SetIf start pfx end_ sfx = c.writer
      ∧ ((NewCoder isTerminal c.writer).SetIf start pfx end_ sfx).write p st = c.w.write p st
      ∧ ((NewCoder (fun _ => true) (Coder.writer ⟨fileRecorder fd resp, true⟩)).SetIf
            start pfx end_ sfx).write p log = (resp log p, log ++ [p])
      ∧ ((NewCoder isTerminal c.writer).Set start pfx end_ sfx).write p st
          = c.w.write (specFrame start pfx end_ sfx p) st := by
  refine ⟨rfl, rfl, rfl, rfl, rfl, rfl, ?_⟩
  show escWriter.Write ⟨start, end_, pfx, sfx, c.writer⟩ p st = _
  rw [escWriter_Write_eq]
  rfl

end Ansi
